import Mathlib

/-!
Verification of the kinematic vehicle model of the parking simulator
(file src/car.ts). The TypeScript class Car is embedded shallowly:
numbers become real numbers, the mutable state object becomes a value
passed and returned, JavaScript Math.cos / Math.sin / Math.tan become
Real.cos / Real.sin / Real.tan, and the JavaScript remainder operator
(truncated remainder) is modelled explicitly by jsRem below.
-/

namespace ParkingSim

/-- State of the car: position of the rear axle center, heading, steering
angle and velocity, mirroring the CarState interface of the source. -/
structure CarState where
  rearAxleX : ℝ
  rearAxleY : ℝ
  heading : ℝ
  steeringAngle : ℝ
  velocity : ℝ

/-- Vehicle geometry profile, mirroring the CarConfig interface. -/
structure CarConfig where
  name : String
  length : ℝ
  width : ℝ
  wheelbase : ℝ
  maxSteeringAngle : ℝ
  speed : ℝ
  rearOverhang : ℝ

/-- A recorded trail point, mirroring WheelTrailPoint. -/
structure WheelTrailPoint where
  x : ℝ
  y : ℝ

/-- The four per-wheel trail sequences, mirroring WheelTrails. -/
structure WheelTrails where
  frontLeft : List WheelTrailPoint
  frontRight : List WheelTrailPoint
  rearLeft : List WheelTrailPoint
  rearRight : List WheelTrailPoint

/-- The five discrete steering positions of the source union type
SteeringPosition. -/
inductive SteeringPosition where
  | fullLeft
  | halfLeft
  | straight
  | halfRight
  | fullRight

/-- Numeric value of a steering position: -1, -0.5, 0, 0.5, 1. -/
noncomputable def SteeringPosition.val : SteeringPosition → ℝ
  | .fullLeft => -1
  | .halfLeft => -0.5
  | .straight => 0
  | .halfRight => 0.5
  | .fullRight => 1

/-- The per-tick control command passed to update: a movement number and a
quantized steering position. -/
structure ControlInput where
  movement : ℝ
  steeringPosition : SteeringPosition

/-- The Kia Picanto geometry preset of the source. -/
noncomputable def PICANTO_CONFIG : CarConfig :=
  { name := "Kia Picanto", length := 120, width := 53, wheelbase := 80,
    maxSteeringAngle := Real.pi / 4, speed := 60, rearOverhang := 20 }

/-- The SUV geometry preset of the source. -/
noncomputable def SUV_CONFIG : CarConfig :=
  { name := "SUV", length := 150, width := 62, wheelbase := 89,
    maxSteeringAngle := Real.pi / 4.5, speed := 60, rearOverhang := 30 }

/-- The Hyundai Staria geometry preset of the source. -/
noncomputable def STARIA_CONFIG : CarConfig :=
  { name := "Hyundai Staria", length := 175, width := 67, wheelbase := 109,
    maxSteeringAngle := Real.pi / 5, speed := 60, rearOverhang := 33 }

/-- The whole Car object: state, active geometry, trail sequences. -/
structure Car where
  state : CarState
  config : CarConfig
  wheelTrails : WheelTrails

/-- Truncation toward zero, as JavaScript number-to-integer truncation. -/
noncomputable def jsTrunc (x : ℝ) : ℤ := if 0 ≤ x then ⌊x⌋ else ⌈x⌉

/-- The JavaScript remainder operator a % b (truncated remainder). -/
noncomputable def jsRem (a b : ℝ) : ℝ := a - b * (jsTrunc (a / b) : ℤ)

/-- The source expression ((heading % (2π)) + 2π) % (2π) normalizing the
heading after a moving tick. -/
noncomputable def normalizeHeading (h : ℝ) : ℝ :=
  jsRem (jsRem h (2 * Real.pi) + 2 * Real.pi) (2 * Real.pi)

/-- The steering transition rate of the source, 5 radians per second. -/
noncomputable def steeringSpeed : ℝ := 5

/-- The rate-limited steering update of Car.update: move the steering angle
toward steeringPosition × maxSteeringAngle, the change clamped by
Math.max(-maxChange, Math.min(maxChange, diff)) with maxChange = 5 × dt. -/
noncomputable def stepSteeringAngle (config : CarConfig) (sp : SteeringPosition)
    (steeringAngle dt : ℝ) : ℝ :=
  let targetSteering := sp.val * config.maxSteeringAngle
  let steeringDiff := targetSteering - steeringAngle
  let maxSteeringChange := steeringSpeed * dt
  steeringAngle + max (-maxSteeringChange) (min maxSteeringChange steeringDiff)

/-- A wheel as returned by Car.getWheels: position, rendering angle, and
the front flag. -/
structure Wheel where
  x : ℝ
  y : ℝ
  angle : ℝ
  isfront : Bool

/-- Fallback wheel used to read the four-element wheel list by index. -/
noncomputable def defaultWheel : Wheel := ⟨0, 0, 0, false⟩

/-- Car.getWheels: wheel positions and angles for rendering, in the order
front left, front right, rear left, rear right. -/
noncomputable def getWheels (config : CarConfig) (state : CarState) : List Wheel :=
  let halfWidth := config.width / 2 - 5
  let c := Real.cos state.heading
  let s := Real.sin state.heading
  let frontAxleX := state.rearAxleX + c * config.wheelbase
  let frontAxleY := state.rearAxleY + s * config.wheelbase
  [ ⟨frontAxleX - s * halfWidth, frontAxleY + c * halfWidth,
      state.heading + state.steeringAngle, true⟩,
    ⟨frontAxleX + s * halfWidth, frontAxleY - c * halfWidth,
      state.heading + state.steeringAngle, true⟩,
    ⟨state.rearAxleX - s * halfWidth, state.rearAxleY + c * halfWidth,
      state.heading, false⟩,
    ⟨state.rearAxleX + s * halfWidth, state.rearAxleY - c * halfWidth,
      state.heading, false⟩ ]

/-- Car.recordWheelPositions: push the current wheel positions onto the
four trail sequences (wheels[0] front left, [1] front right, [2] rear
left, [3] rear right). -/
noncomputable def recordWheelPositions (config : CarConfig) (state : CarState)
    (trails : WheelTrails) : WheelTrails :=
  let wheels := getWheels config state
  { frontLeft := trails.frontLeft ++
      [⟨(wheels.getD 0 defaultWheel).x, (wheels.getD 0 defaultWheel).y⟩],
    frontRight := trails.frontRight ++
      [⟨(wheels.getD 1 defaultWheel).x, (wheels.getD 1 defaultWheel).y⟩],
    rearLeft := trails.rearLeft ++
      [⟨(wheels.getD 2 defaultWheel).x, (wheels.getD 2 defaultWheel).y⟩],
    rearRight := trails.rearRight ++
      [⟨(wheels.getD 3 defaultWheel).x, (wheels.getD 3 defaultWheel).y⟩] }

/-- The empty trail record used at construction, clearTrails and reset. -/
def emptyTrails : WheelTrails := ⟨[], [], [], []⟩

/-- The lever arm (length / 2 − rearOverhang) between the rear axle and the
visual center, computed identically at construction, getCarCenter, reset. -/
noncomputable def centerOffset (config : CarConfig) : ℝ :=
  config.length / 2 - config.rearOverhang

/-- The Car constructor: x, y is the visual car center, converted to the
rear axle position; steering angle and velocity start at zero and the
trails start empty. -/
noncomputable def mkCar (x y heading : ℝ) (config : CarConfig) : Car :=
  { config := config,
    state := { rearAxleX := x - Real.cos heading * centerOffset config,
               rearAxleY := y - Real.sin heading * centerOffset config,
               heading := heading, steeringAngle := 0, velocity := 0 },
    wheelTrails := emptyTrails }

/-- Car.setConfig: swap the active geometry profile. -/
def Car.setConfig (car : Car) (config : CarConfig) : Car :=
  { car with config := config }

/-- Car.getCarCenter: the visual center, ahead of the rear axle by the
center offset along the heading. -/
noncomputable def Car.getCarCenter (car : Car) : ℝ × ℝ :=
  (car.state.rearAxleX + Real.cos car.state.heading * centerOffset car.config,
   car.state.rearAxleY + Real.sin car.state.heading * centerOffset car.config)

/-- Car.clearTrails: empty all four trail sequences. -/
def Car.clearTrails (car : Car) : Car :=
  { car with wheelTrails := emptyTrails }

/-- Car.reset: reinitialize the pose from a visual-center position, zero
steering angle and velocity, and clear the trails. -/
noncomputable def Car.reset (car : Car) (x y heading : ℝ) : Car :=
  { car with
    state := { rearAxleX := x - Real.cos heading * centerOffset car.config,
               rearAxleY := y - Real.sin heading * centerOffset car.config,
               heading := heading, steeringAngle := 0, velocity := 0 },
    wheelTrails := emptyTrails }

/-- The state after the steering and velocity assignments of Car.update,
before the trail recording and the heading and position integration. -/
noncomputable def preIntegrationState (car : Car) (dt : ℝ) (input : ControlInput) :
    CarState :=
  { car.state with
    steeringAngle := stepSteeringAngle car.config input.steeringPosition
      car.state.steeringAngle dt,
    velocity := input.movement * car.config.speed }

/-- Car.update: rate-limit the steering angle, set the velocity directly,
and if the speed magnitude exceeds 0.1 record the wheel positions and
integrate the bicycle model (heading first, then rear-axle translation
along the new heading, then heading normalization). -/
noncomputable def Car.update (car : Car) (dt : ℝ) (input : ControlInput) : Car :=
  let s1 := preIntegrationState car dt input
  if 0.1 < |s1.velocity| then
    let trails1 := recordWheelPositions car.config s1 car.wheelTrails
    let heading1 :=
      if 0.001 < |s1.steeringAngle| then
        let turningRadius := car.config.wheelbase / Real.tan s1.steeringAngle
        let angularVelocity := s1.velocity / turningRadius
        s1.heading + angularVelocity * dt
      else s1.heading
    { car with
      state := { rearAxleX := s1.rearAxleX + Real.cos heading1 * s1.velocity * dt,
                 rearAxleY := s1.rearAxleY + Real.sin heading1 * s1.velocity * dt,
                 heading := normalizeHeading heading1,
                 steeringAngle := s1.steeringAngle,
                 velocity := s1.velocity },
      wheelTrails := trails1 }
  else
    { car with state := s1 }

/-- A sequence of update calls, folded over a list of time deltas and
commands. -/
noncomputable def Car.updates (car : Car) (ops : List (ℝ × ControlInput)) : Car :=
  ops.foldl (fun c op => c.update op.1 op.2) car

/-- The clamped step Math.max(-c, Math.min(c, d)) lies between 0 and d when
d is nonnegative and the clamp bound c is nonnegative. -/
lemma clampStep_of_nonneg {c d : ℝ} (hc : 0 ≤ c) (hd : 0 ≤ d) :
    0 ≤ max (-c) (min c d) ∧ max (-c) (min c d) ≤ d := by
  have h1 : (0 : ℝ) ≤ min c d := le_min hc hd
  have h2 : max (-c) (min c d) = min c d :=
    max_eq_right (le_trans (neg_nonpos.mpr hc) h1)
  rw [h2]
  exact ⟨h1, min_le_right _ _⟩

/-- The clamped step Math.max(-c, Math.min(c, d)) lies between d and 0 when
d is nonpositive and the clamp bound c is nonnegative. -/
lemma clampStep_of_nonpos {c d : ℝ} (hc : 0 ≤ c) (hd : d ≤ 0) :
    d ≤ max (-c) (min c d) ∧ max (-c) (min c d) ≤ 0 := by
  have h1 : min c d = d := min_eq_right (hd.trans hc)
  rw [h1]
  exact ⟨le_max_right _ _, max_le (neg_nonpos.mpr hc) hd⟩

/-- For a nonnegative dividend the JavaScript remainder by a positive
modulus lies in [0, b). -/
lemma jsRem_mem_Ico {a b : ℝ} (hb : 0 < b) (ha : 0 ≤ a) :
    jsRem a b ∈ Set.Ico 0 b := by
  have hq : jsTrunc (a / b) = ⌊a / b⌋ := if_pos (div_nonneg ha hb.le)
  have h1 : ((⌊a / b⌋ : ℤ) : ℝ) ≤ a / b := Int.floor_le _
  have h2 : a / b < (⌊a / b⌋ : ℝ) + 1 := Int.lt_floor_add_one _
  have hba : b * (a / b) = a := by field_simp
  unfold jsRem
  rw [hq]
  constructor
  · nlinarith [mul_le_mul_of_nonneg_left h1 hb.le]
  · nlinarith [mul_lt_mul_of_pos_left h2 hb]

/-- For a negative dividend the JavaScript remainder by a positive modulus
lies in (-b, 0]. -/
lemma jsRem_neg_mem {a b : ℝ} (hb : 0 < b) (ha : a < 0) :
    -b < jsRem a b ∧ jsRem a b ≤ 0 := by
  have hq : jsTrunc (a / b) = ⌈a / b⌉ :=
    if_neg (not_le.mpr (div_neg_of_neg_of_pos ha hb))
  have h1 : a / b ≤ ((⌈a / b⌉ : ℤ) : ℝ) := Int.le_ceil _
  have h2 : ((⌈a / b⌉ : ℤ) : ℝ) < a / b + 1 := Int.ceil_lt_add_one _
  have hba : b * (a / b) = a := by field_simp
  unfold jsRem
  rw [hq]
  constructor
  · nlinarith [mul_lt_mul_of_pos_left h2 hb]
  · nlinarith [mul_le_mul_of_nonneg_left h1 hb.le]

/-- The JavaScript remainder by a positive modulus always exceeds -b. -/
lemma neg_lt_jsRem {a b : ℝ} (hb : 0 < b) : -b < jsRem a b := by
  rcases le_or_lt 0 a with ha | ha
  · have := (jsRem_mem_Ico hb ha).1
    linarith
  · exact (jsRem_neg_mem hb ha).1

/-- The normalized heading lies in [0, 2π). -/
lemma normalizeHeading_mem_Ico (h : ℝ) :
    normalizeHeading h ∈ Set.Ico 0 (2 * Real.pi) := by
  have hb : (0 : ℝ) < 2 * Real.pi := by positivity
  have h1 : -(2 * Real.pi) < jsRem h (2 * Real.pi) := neg_lt_jsRem hb
  have h2 : 0 ≤ jsRem h (2 * Real.pi) + 2 * Real.pi := by linarith
  exact jsRem_mem_Ico hb h2

/-- The steering angle after update is the rate-limited steering value, in
both the moving and the stopped branch. -/
lemma update_steeringAngle (car : Car) (dt : ℝ) (input : ControlInput) :
    (car.update dt input).state.steeringAngle =
      stepSteeringAngle car.config input.steeringPosition
        car.state.steeringAngle dt := by
  unfold Car.update
  dsimp only
  split <;> rfl

/-- The velocity after update is movement × speed, in both branches. -/
lemma update_velocity (car : Car) (dt : ℝ) (input : ControlInput) :
    (car.update dt input).state.velocity = input.movement * car.config.speed := by
  unfold Car.update
  dsimp only
  split <;> rfl

/-- The integration property of a moving update tick: with sa the
rate-limited steering angle and v the new velocity, the heading is first
incremented by v / (wheelbase / tan sa) × dt when the steering magnitude
exceeds 0.001 (and left unchanged otherwise), and the rear axle is then
translated by v × dt along that post-update heading; the stored heading is
the normalized post-update heading. -/
def IntegrationSpec (car : Car) (dt : ℝ) (input : ControlInput) : Prop :=
  let sa := stepSteeringAngle car.config input.steeringPosition
    car.state.steeringAngle dt
  let v := input.movement * car.config.speed
  let h1 := if 0.001 < |sa| then
      car.state.heading + v / (car.config.wheelbase / Real.tan sa) * dt
    else car.state.heading
  (car.update dt input).state.rearAxleX =
      car.state.rearAxleX + Real.cos h1 * v * dt ∧
  (car.update dt input).state.rearAxleY =
      car.state.rearAxleY + Real.sin h1 * v * dt ∧
  (car.update dt input).state.heading = normalizeHeading h1 ∧
  (car.update dt input).state.steeringAngle = sa ∧
  (car.update dt input).state.velocity = v

/-- C1: in every update call whose new velocity magnitude exceeds 0.1, the
heading is first incremented by (velocity / (wheelbase / tan steeringAngle))
× dt when the steering magnitude exceeds 0.001 and left unchanged otherwise,
and only then is the rear axle translated by cos/sin of the post-update
heading times velocity × dt. -/
theorem update_moving_integration (car : Car) (dt : ℝ) (input : ControlInput)
    (hv : 0.1 < |input.movement * car.config.speed|) :
    IntegrationSpec car dt input := by
  unfold IntegrationSpec Car.update preIntegrationState
  dsimp only
  rw [if_pos hv]
  exact ⟨rfl, rfl, rfl, rfl, rfl⟩

/-- Witness for C1 at a concrete moving tick. -/
theorem update_moving_integration_witness :
    (0.1 : ℝ) < |(1 : ℝ) * PICANTO_CONFIG.speed| ∧
      IntegrationSpec (mkCar 100 100 0 PICANTO_CONFIG) (1 / 60)
        ⟨1, SteeringPosition.fullRight⟩ :=
  ⟨by norm_num [PICANTO_CONFIG],
   update_moving_integration _ _ _ (by norm_num [mkCar, PICANTO_CONFIG, abs_of_pos])⟩

/-- The clamped move toward a target never overshoots the target: the
remaining difference keeps the sign of the original difference. -/
lemma clamp_no_overshoot {c cur target : ℝ} (hc : 0 ≤ c) :
    0 ≤ (target - (cur + max (-c) (min c (target - cur)))) * (target - cur) := by
  rcases le_or_lt 0 (target - cur) with hd | hd
  · obtain ⟨h1, h2⟩ := clampStep_of_nonneg hc hd
    nlinarith
  · obtain ⟨h1, h2⟩ := clampStep_of_nonpos hc hd.le
    nlinarith

/-- The steering rate-limit property of an update tick: the new steering
angle is the old one plus the difference to the target clamped to
[-5 dt, 5 dt]; a difference whose magnitude exceeds 5 dt changes the angle
by exactly ±5 dt with the sign of the difference; and the angle never moves
past the target. -/
def SteeringRateSpec (car : Car) (dt : ℝ) (input : ControlInput) : Prop :=
  let target := input.steeringPosition.val * car.config.maxSteeringAngle
  let diff := target - car.state.steeringAngle
  let sa := (car.update dt input).state.steeringAngle
  sa = car.state.steeringAngle + max (-(5 * dt)) (min (5 * dt) diff) ∧
  (5 * dt < |diff| →
    sa - car.state.steeringAngle = if 0 < diff then 5 * dt else -(5 * dt)) ∧
  0 ≤ (target - sa) * diff

/-- C2: for every update call with dt ≥ 0, the steering angle moves toward
the target steeringPosition × maxSteeringAngle with the change clamped to
[-5 dt, 5 dt], changes by exactly ±5 dt when the distance exceeds 5 dt, and
never moves past the target. -/
theorem update_steering_rate_limit (car : Car) (dt : ℝ) (input : ControlInput)
    (hdt : 0 ≤ dt) : SteeringRateSpec car dt input := by
  have h5 : (0 : ℝ) ≤ 5 * dt := by linarith
  unfold SteeringRateSpec
  rw [update_steeringAngle]
  unfold stepSteeringAngle steeringSpeed
  dsimp only
  set diff := input.steeringPosition.val * car.config.maxSteeringAngle -
    car.state.steeringAngle with hdiff
  refine ⟨rfl, ?_, ?_⟩
  · intro h
    rcases lt_or_le 0 diff with hd | hd
    · rw [if_pos hd]
      rw [abs_of_pos hd] at h
      rw [min_eq_left h.le, max_eq_right (by linarith : -(5 * dt) ≤ 5 * dt)]
      ring
    · rw [if_neg (not_lt.mpr hd)]
      rw [abs_of_nonpos hd] at h
      rw [min_eq_right (hd.trans h5), max_eq_left (by linarith : diff ≤ -(5 * dt))]
      ring
  · rw [hdiff]
    exact clamp_no_overshoot h5

/-- Witness for C2 at a concrete tick with dt = 1/60. -/
theorem update_steering_rate_limit_witness :
    (0 : ℝ) ≤ 1 / 60 ∧
      SteeringRateSpec (mkCar 100 100 0 PICANTO_CONFIG) (1 / 60)
        ⟨0, SteeringPosition.fullRight⟩ :=
  ⟨by norm_num, update_steering_rate_limit _ _ _ (by norm_num)⟩

/-- An update tick below the 0.1 speed threshold leaves the heading
untouched (in particular it is not normalized). -/
lemma update_heading_of_stopped (car : Car) (dt : ℝ) (input : ControlInput)
    (hv : ¬ 0.1 < |input.movement * car.config.speed|) :
    (car.update dt input).state.heading = car.state.heading := by
  unfold Car.update preIntegrationState
  dsimp only
  rw [if_neg hv]

/-- Every update tick either leaves the heading unchanged or stores a
normalized heading in [0, 2π). -/
lemma update_heading_mem_or_eq (car : Car) (dt : ℝ) (input : ControlInput) :
    (car.update dt input).state.heading = car.state.heading ∨
      (car.update dt input).state.heading ∈ Set.Ico 0 (2 * Real.pi) := by
  unfold Car.update preIntegrationState
  dsimp only
  split
  · exact Or.inr (normalizeHeading_mem_Ico _)
  · exact Or.inl rfl

/-- An update call peels off the head of an update sequence. -/
lemma updates_cons (car : Car) (op : ℝ × ControlInput)
    (ops : List (ℝ × ControlInput)) :
    car.updates (op :: ops) = (car.update op.1 op.2).updates ops := rfl

/-- Counterexample to C3 as stated: a car constructed with heading 7 and
updated once with zero movement keeps heading 7, which is not in [0, 2π),
because neither the constructor nor a stopped tick normalizes the heading. -/
theorem heading_range_cex :
    ¬ (((mkCar 100 100 7 PICANTO_CONFIG).updates
          [((1 : ℝ) / 60, ⟨0, SteeringPosition.straight⟩)]).state.heading ∈
        Set.Ico 0 (2 * Real.pi)) := by
  intro hmem
  rw [updates_cons, show ((mkCar 100 100 7 PICANTO_CONFIG).update (1 / 60)
        ⟨0, SteeringPosition.straight⟩).updates [] =
      (mkCar 100 100 7 PICANTO_CONFIG).update (1 / 60)
        ⟨0, SteeringPosition.straight⟩ from rfl,
    update_heading_of_stopped _ _ _ (by norm_num)] at hmem
  have h7 : (mkCar 100 100 7 PICANTO_CONFIG).state.heading = 7 := rfl
  rw [h7] at hmem
  have := hmem.2
  have hpi := Real.pi_lt_d2
  linarith

/-- C3 amended: provided the heading given to the constructor already lies
in [0, 2π), the heading stays in [0, 2π) after any sequence of update
calls, since stopped ticks keep it and moving ticks normalize it by the
floored double-remainder expression. -/
theorem updates_heading_mem_Ico (x y h : ℝ) (cfg : CarConfig)
    (hh : h ∈ Set.Ico 0 (2 * Real.pi)) (ops : List (ℝ × ControlInput)) :
    ((mkCar x y h cfg).updates ops).state.heading ∈ Set.Ico 0 (2 * Real.pi) := by
  have key : ∀ (ops : List (ℝ × ControlInput)) (car : Car),
      car.state.heading ∈ Set.Ico 0 (2 * Real.pi) →
      (car.updates ops).state.heading ∈ Set.Ico 0 (2 * Real.pi) := by
    intro ops
    induction ops with
    | nil => intro car hcar; exact hcar
    | cons op rest ih =>
      intro car hcar
      rw [updates_cons]
      refine ih _ ?_
      rcases update_heading_mem_or_eq car op.1 op.2 with he | hm
      · rw [he]; exact hcar
      · exact hm
  exact key ops _ hh

/-- Witness for the amended C3 at heading 0 with an empty sequence. -/
theorem updates_heading_mem_Ico_witness :
    (0 : ℝ) ∈ Set.Ico 0 (2 * Real.pi) ∧
      ((mkCar 0 0 0 PICANTO_CONFIG).updates []).state.heading ∈
        Set.Ico 0 (2 * Real.pi) :=
  ⟨Set.mem_Ico.mpr ⟨le_rfl, by positivity⟩,
   updates_heading_mem_Ico 0 0 0 PICANTO_CONFIG
     (Set.mem_Ico.mpr ⟨le_rfl, by positivity⟩) []⟩

/-- The active geometry is unchanged by an update tick. -/
lemma update_config (car : Car) (dt : ℝ) (input : ControlInput) :
    (car.update dt input).config = car.config := by
  unfold Car.update
  dsimp only
  split <;> rfl

/-- The magnitude of every steering position value is at most one. -/
lemma steeringPosition_val_abs_le (sp : SteeringPosition) : |sp.val| ≤ 1 := by
  cases sp <;> simp only [SteeringPosition.val, abs_le] <;> constructor <;> norm_num

/-- The rate-limited steering step keeps the steering magnitude within the
maximum steering angle of the geometry it is computed from, for dt ≥ 0. -/
lemma stepSteeringAngle_abs_le (config : CarConfig) (sp : SteeringPosition)
    {sa dt : ℝ} (hdt : 0 ≤ dt) (hsa : |sa| ≤ config.maxSteeringAngle) :
    |stepSteeringAngle config sp sa dt| ≤ config.maxSteeringAngle := by
  have hmax : 0 ≤ config.maxSteeringAngle := le_trans (abs_nonneg sa) hsa
  have hval := steeringPosition_val_abs_le sp
  have htar : |sp.val * config.maxSteeringAngle| ≤ config.maxSteeringAngle := by
    rw [abs_mul, abs_of_nonneg hmax]
    nlinarith [abs_nonneg sp.val]
  rw [abs_le] at hsa htar ⊢
  unfold stepSteeringAngle steeringSpeed
  dsimp only
  have h5 : (0 : ℝ) ≤ 5 * dt := by linarith
  rcases le_or_lt 0 (sp.val * config.maxSteeringAngle - sa) with hd | hd
  · obtain ⟨h1, h2⟩ := clampStep_of_nonneg h5 hd
    constructor <;> linarith
  · obtain ⟨h1, h2⟩ := clampStep_of_nonpos h5 hd.le
    constructor <;> linarith

/-- The state-bound invariant of the spec: steering magnitude within the
active maximum steering angle, speed magnitude within the active speed. -/
def StateBounds (car : Car) : Prop :=
  |car.state.steeringAngle| ≤ car.config.maxSteeringAngle ∧
    |car.state.velocity| ≤ car.config.speed

/-- One update tick with dt ≥ 0 and an enumerated movement value preserves
the state bounds relative to the unchanged active geometry. -/
lemma update_preserves_state_bounds (car : Car) (dt : ℝ) (input : ControlInput)
    (hdt : 0 ≤ dt)
    (hm : input.movement = -1 ∨ input.movement = 0 ∨ input.movement = 1)
    (hspeed : 0 ≤ car.config.speed)
    (hsa : |car.state.steeringAngle| ≤ car.config.maxSteeringAngle) :
    StateBounds (car.update dt input) := by
  constructor
  · rw [update_config, update_steeringAngle]
    exact stepSteeringAngle_abs_le car.config input.steeringPosition hdt hsa
  · rw [update_config, update_velocity, abs_mul]
    rcases hm with hm | hm | hm
    all_goals rw [hm]; simp [abs_of_nonneg hspeed, hspeed]

/-- Counterexample to C4 as stated: one full-lock tick of a Picanto brings
the steering angle to π/4; swapping the geometry to the Staria profile
(maximum steering angle π/5) then leaves the state violating the bound
|steeringAngle| ≤ maxSteeringAngle of the active geometry. -/
theorem setConfig_bounds_cex :
    ¬ (|(((mkCar 100 100 0 PICANTO_CONFIG).update 1
            ⟨0, SteeringPosition.fullRight⟩).setConfig
            STARIA_CONFIG).state.steeringAngle| ≤
        (((mkCar 100 100 0 PICANTO_CONFIG).update 1
            ⟨0, SteeringPosition.fullRight⟩).setConfig
            STARIA_CONFIG).config.maxSteeringAngle) := by
  have hpi := Real.pi_pos
  have hpi2 := Real.pi_lt_d2
  have hs : (((mkCar 100 100 0 PICANTO_CONFIG).update 1
      ⟨0, SteeringPosition.fullRight⟩).setConfig
      STARIA_CONFIG).state.steeringAngle = Real.pi / 4 := by
    show ((mkCar 100 100 0 PICANTO_CONFIG).update 1
      ⟨0, SteeringPosition.fullRight⟩).state.steeringAngle = Real.pi / 4
    rw [update_steeringAngle]
    unfold stepSteeringAngle steeringSpeed mkCar PICANTO_CONFIG
      SteeringPosition.val
    dsimp only
    rw [show (1 : ℝ) * (Real.pi / 4) - 0 = Real.pi / 4 by ring,
      show (5 : ℝ) * 1 = 5 by norm_num,
      min_eq_right (by linarith : Real.pi / 4 ≤ 5),
      max_eq_right (by linarith : -(5 : ℝ) ≤ Real.pi / 4)]
    ring
  have hc : (((mkCar 100 100 0 PICANTO_CONFIG).update 1
      ⟨0, SteeringPosition.fullRight⟩).setConfig
      STARIA_CONFIG).config.maxSteeringAngle = Real.pi / 5 := rfl
  rw [hs, hc, abs_of_pos (by positivity)]
  intro hle
  linarith

/-- C4 amended: after construction and after every sequence of update
calls with dt ≥ 0 and movement from the enumerated set, and with the
geometry not swapped along the way, the steering magnitude stays within
the active maximum steering angle and the speed magnitude within the
active speed. -/
theorem updates_state_bounds (x y h : ℝ) (cfg : CarConfig)
    (hmax : 0 ≤ cfg.maxSteeringAngle) (hspeed : 0 ≤ cfg.speed)
    (ops : List (ℝ × ControlInput))
    (hops : ∀ op ∈ ops, 0 ≤ op.1 ∧
      (op.2.movement = -1 ∨ op.2.movement = 0 ∨ op.2.movement = 1)) :
    StateBounds ((mkCar x y h cfg).updates ops) := by
  have key : ∀ (ops : List (ℝ × ControlInput)) (car : Car),
      car.config = cfg → StateBounds car →
      (∀ op ∈ ops, 0 ≤ op.1 ∧
        (op.2.movement = -1 ∨ op.2.movement = 0 ∨ op.2.movement = 1)) →
      StateBounds (car.updates ops) := by
    intro ops
    induction ops with
    | nil => intro car _ hcar _; exact hcar
    | cons op rest ih =>
      intro car hcfg hcar hall
      rw [updates_cons]
      have hop := hall op (List.mem_cons_self op rest)
      refine ih _ (by rw [update_config, hcfg]) ?_
        (fun p hp => hall p (List.mem_cons_of_mem op hp))
      exact update_preserves_state_bounds car op.1 op.2 hop.1 hop.2
        (by rw [hcfg]; exact hspeed) hcar.1
  refine key ops _ rfl ⟨?_, ?_⟩ hops
  · show |(0 : ℝ)| ≤ cfg.maxSteeringAngle
    simpa using hmax
  · show |(0 : ℝ)| ≤ cfg.speed
    simpa using hspeed

/-- Witness for the amended C4 with the Picanto geometry and one forward
tick. -/
theorem updates_state_bounds_witness :
    ((0 : ℝ) ≤ PICANTO_CONFIG.maxSteeringAngle ∧
      (0 : ℝ) ≤ PICANTO_CONFIG.speed ∧
      (∀ op ∈ [((1 : ℝ) / 60, (⟨1, SteeringPosition.straight⟩ : ControlInput))],
        0 ≤ op.1 ∧
          (op.2.movement = -1 ∨ op.2.movement = 0 ∨ op.2.movement = 1))) ∧
      StateBounds ((mkCar 0 0 0 PICANTO_CONFIG).updates
        [((1 : ℝ) / 60, ⟨1, SteeringPosition.straight⟩)]) := by
  have h1 : (0 : ℝ) ≤ PICANTO_CONFIG.maxSteeringAngle := by
    unfold PICANTO_CONFIG; dsimp only; positivity
  have h2 : (0 : ℝ) ≤ PICANTO_CONFIG.speed := by
    unfold PICANTO_CONFIG; dsimp only; norm_num
  have h3 : ∀ op ∈ [((1 : ℝ) / 60, (⟨1, SteeringPosition.straight⟩ : ControlInput))],
      0 ≤ op.1 ∧
        (op.2.movement = -1 ∨ op.2.movement = 0 ∨ op.2.movement = 1) := by
    intro op hop
    rw [List.mem_singleton] at hop
    rw [hop]
    exact ⟨by norm_num, Or.inr (Or.inr rfl)⟩
  exact ⟨⟨h1, h2, h3⟩, updates_state_bounds 0 0 0 PICANTO_CONFIG h1 h2 _ h3⟩

/-- An update tick with zero movement only rate-limits the steering angle
toward zero and zeroes the velocity; position, heading and trails are
untouched because the speed threshold test fails. -/
lemma update_zero_input (car : Car) (dt : ℝ) :
    car.update dt ⟨0, SteeringPosition.straight⟩ =
      { car with state := { car.state with
          steeringAngle := stepSteeringAngle car.config
            SteeringPosition.straight car.state.steeringAngle dt,
          velocity := 0 } } := by
  have hv : ¬ (0.1 : ℝ) < |(0 : ℝ) * car.config.speed| := by norm_num
  unfold Car.update preIntegrationState
  dsimp only
  rw [if_neg hv]
  simp only [zero_mul]

/-- A clamped step toward a zero target shrinks the magnitude and keeps
the sign (no overshoot past zero). -/
lemma zero_target_step {sa c : ℝ} (hc : 0 ≤ c) :
    |sa + max (-c) (min c (-sa))| ≤ |sa| ∧
      0 ≤ (sa + max (-c) (min c (-sa))) * sa := by
  rcases le_or_lt 0 sa with hs | hs
  · have hd : -sa ≤ 0 := by linarith
    obtain ⟨h1, h2⟩ := clampStep_of_nonpos hc hd
    refine ⟨?_, mul_nonneg (by linarith) hs⟩
    rw [abs_of_nonneg (by linarith), abs_of_nonneg hs]
    linarith
  · have hd : 0 ≤ -sa := by linarith
    obtain ⟨h1, h2⟩ := clampStep_of_nonneg hc hd
    refine ⟨?_, by nlinarith⟩
    rw [abs_of_nonpos (by linarith), abs_of_nonpos hs.le]
    linarith

/-- The zero-input property: iterating update with the zero command leaves
the rear-axle position and the heading unchanged, and from every tick to
the next the steering magnitude does not grow and the steering sign does
not flip. -/
def ZeroInputSpec (car : Car) (dt : ℝ) (N : ℕ) : Prop :=
  let f := fun c : Car => c.update dt ⟨0, SteeringPosition.straight⟩
  (f^[N] car).state.rearAxleX = car.state.rearAxleX ∧
  (f^[N] car).state.rearAxleY = car.state.rearAxleY ∧
  (f^[N] car).state.heading = car.state.heading ∧
  ∀ k : ℕ,
    |(f^[k + 1] car).state.steeringAngle| ≤
      |(f^[k] car).state.steeringAngle| ∧
    0 ≤ (f^[k + 1] car).state.steeringAngle *
      (f^[k] car).state.steeringAngle

/-- C5: for every vehicle, geometry and dt ≥ 0, N zero-input updates leave
the rear-axle position and the heading exactly unchanged, and the steering
angle moves monotonically toward 0 without ever crossing 0. -/
theorem zero_input_no_motion (car : Car) (dt : ℝ) (hdt : 0 ≤ dt) (N : ℕ) :
    ZeroInputSpec car dt N := by
  unfold ZeroInputSpec
  dsimp only
  have hstep : ∀ c : Car,
      (c.update dt ⟨0, SteeringPosition.straight⟩).state.rearAxleX =
          c.state.rearAxleX ∧
        (c.update dt ⟨0, SteeringPosition.straight⟩).state.rearAxleY =
          c.state.rearAxleY ∧
        (c.update dt ⟨0, SteeringPosition.straight⟩).state.heading =
          c.state.heading := by
    intro c
    rw [update_zero_input]
    exact ⟨rfl, rfl, rfl⟩
  refine ⟨?_, ?_, ?_, ?_⟩
  · induction N with
    | zero => rfl
    | succ n ih =>
      rw [Function.iterate_succ_apply', (hstep _).1]
      exact ih
  · induction N with
    | zero => rfl
    | succ n ih =>
      rw [Function.iterate_succ_apply', (hstep _).2.1]
      exact ih
  · induction N with
    | zero => rfl
    | succ n ih =>
      rw [Function.iterate_succ_apply', (hstep _).2.2]
      exact ih
  · intro k
    rw [Function.iterate_succ_apply', update_steeringAngle]
    unfold stepSteeringAngle steeringSpeed
    dsimp only
    simp only [SteeringPosition.val, zero_mul, zero_sub]
    exact zero_target_step (by linarith)

/-- Witness for C5 at a concrete vehicle with dt = 1/60 and N = 3. -/
theorem zero_input_no_motion_witness :
    (0 : ℝ) ≤ 1 / 60 ∧ ZeroInputSpec (mkCar 0 0 0 PICANTO_CONFIG) (1 / 60) 3 :=
  ⟨by norm_num,
   zero_input_no_motion (mkCar 0 0 0 PICANTO_CONFIG) (1 / 60) (by norm_num) 3⟩

/-- The trail-growth property of an update tick: on a moving tick every
trail sequence is extended by exactly the matching wheel position computed
from the pre-integration state (whose position and heading still equal the
pre-update ones), so each length grows by one; on a stopped tick the
trails are returned unchanged. -/
def TrailGrowthSpec (car : Car) (dt : ℝ) (input : ControlInput) : Prop :=
  let v := input.movement * car.config.speed
  let s1 := preIntegrationState car dt input
  let w := getWheels car.config s1
  let t := car.wheelTrails
  let t1 := (car.update dt input).wheelTrails
  (0.1 < |v| →
    t1.frontLeft = t.frontLeft ++
      [⟨(w.getD 0 defaultWheel).x, (w.getD 0 defaultWheel).y⟩] ∧
    t1.frontRight = t.frontRight ++
      [⟨(w.getD 1 defaultWheel).x, (w.getD 1 defaultWheel).y⟩] ∧
    t1.rearLeft = t.rearLeft ++
      [⟨(w.getD 2 defaultWheel).x, (w.getD 2 defaultWheel).y⟩] ∧
    t1.rearRight = t.rearRight ++
      [⟨(w.getD 3 defaultWheel).x, (w.getD 3 defaultWheel).y⟩] ∧
    t1.frontLeft.length = t.frontLeft.length + 1 ∧
    t1.frontRight.length = t.frontRight.length + 1 ∧
    t1.rearLeft.length = t.rearLeft.length + 1 ∧
    t1.rearRight.length = t.rearRight.length + 1 ∧
    s1.rearAxleX = car.state.rearAxleX ∧
    s1.rearAxleY = car.state.rearAxleY ∧
    s1.heading = car.state.heading) ∧
  (¬ 0.1 < |v| → t1 = t)

/-- C6: on every update tick whose new speed magnitude exceeds 0.1 each of
the four trail sequences grows by exactly the wheel point computed before
the heading and position integration, and on every other tick no trail
grows. -/
theorem update_trail_growth (car : Car) (dt : ℝ) (input : ControlInput) :
    TrailGrowthSpec car dt input := by
  unfold TrailGrowthSpec
  dsimp only
  constructor
  · intro hv
    unfold Car.update preIntegrationState recordWheelPositions
    dsimp only
    rw [if_pos hv]
    refine ⟨rfl, rfl, rfl, rfl, ?_, ?_, ?_, ?_, rfl, rfl, rfl⟩
    all_goals simp
  · intro hv
    unfold Car.update preIntegrationState
    dsimp only
    rw [if_neg hv]

/-- Witness for C6 at a concrete moving tick. -/
theorem update_trail_growth_witness :
    TrailGrowthSpec (mkCar 0 0 0 PICANTO_CONFIG) (1 / 60)
      ⟨1, SteeringPosition.straight⟩ :=
  update_trail_growth _ _ _

/-- C7: after reset(x, y, h) the visual center query returns exactly
(x, y) with the rear axle offset backward along h by the center offset,
the heading equals h, steering angle and velocity are zero, and all four
trail sequences are empty. -/
theorem reset_center (car : Car) (x y h : ℝ) :
    (car.reset x y h).getCarCenter = (x, y) ∧
    (car.reset x y h).state.rearAxleX = x - Real.cos h * centerOffset car.config ∧
    (car.reset x y h).state.rearAxleY = y - Real.sin h * centerOffset car.config ∧
    (car.reset x y h).state.heading = h ∧
    (car.reset x y h).state.steeringAngle = 0 ∧
    (car.reset x y h).state.velocity = 0 ∧
    (car.reset x y h).wheelTrails.frontLeft = [] ∧
    (car.reset x y h).wheelTrails.frontRight = [] ∧
    (car.reset x y h).wheelTrails.rearLeft = [] ∧
    (car.reset x y h).wheelTrails.rearRight = [] := by
  refine ⟨?_, rfl, rfl, rfl, rfl, rfl, rfl, rfl, rfl, rfl⟩
  unfold Car.reset Car.getCarCenter
  dsimp only
  rw [Prod.mk.injEq]
  constructor <;> ring

/-- C8: setConfig replaces only the active geometry: the state (rear-axle
position, heading, steering angle, velocity) and all four trail sequences
are exactly the same after the call. -/
theorem setConfig_frame (car : Car) (config : CarConfig) :
    (car.setConfig config).state = car.state ∧
    (car.setConfig config).wheelTrails = car.wheelTrails ∧
    (car.setConfig config).config = config :=
  ⟨rfl, rfl, rfl⟩

/-- C9: the wheel query returns four wheels: the front pair sits on the
front axle center (the rear axle advanced along the heading by the
wheelbase) offset by plus and minus (width / 2 − 5) along the
perpendicular (-sin, cos) of the heading, carries angle heading +
steeringAngle and the front flag; the rear pair sits likewise around the
rear axle, carries angle heading and the rear flag. -/
theorem getWheels_spec (config : CarConfig) (state : CarState) :
    getWheels config state =
      [ ⟨state.rearAxleX + Real.cos state.heading * config.wheelbase +
            -Real.sin state.heading * (config.width / 2 - 5),
          state.rearAxleY + Real.sin state.heading * config.wheelbase +
            Real.cos state.heading * (config.width / 2 - 5),
          state.heading + state.steeringAngle, true⟩,
        ⟨state.rearAxleX + Real.cos state.heading * config.wheelbase -
            -Real.sin state.heading * (config.width / 2 - 5),
          state.rearAxleY + Real.sin state.heading * config.wheelbase -
            Real.cos state.heading * (config.width / 2 - 5),
          state.heading + state.steeringAngle, true⟩,
        ⟨state.rearAxleX + -Real.sin state.heading * (config.width / 2 - 5),
          state.rearAxleY + Real.cos state.heading * (config.width / 2 - 5),
          state.heading, false⟩,
        ⟨state.rearAxleX - -Real.sin state.heading * (config.width / 2 - 5),
          state.rearAxleY - Real.cos state.heading * (config.width / 2 - 5),
          state.heading, false⟩ ] := by
  unfold getWheels
  dsimp only
  simp only [List.cons.injEq, Wheel.mk.injEq, and_true]
  repeat' constructor
  all_goals first
    | rfl
    | ring

/-- The operations of the public interface that can touch the trails or
the state, used to state the cross-operation invariant. -/
inductive CarOp where
  | update (dt : ℝ) (input : ControlInput)
  | clearTrails
  | setConfig (config : CarConfig)
  | reset (x y heading : ℝ)

/-- Dispatch one public operation on the car. -/
noncomputable def Car.applyOp (car : Car) : CarOp → Car
  | .update dt input => car.update dt input
  | .clearTrails => car.clearTrails
  | .setConfig config => car.setConfig config
  | .reset x y heading => car.reset x y heading

/-- Run a sequence of public operations from left to right. -/
noncomputable def Car.applyOps (car : Car) (ops : List CarOp) : Car :=
  ops.foldl Car.applyOp car

/-- All four trail sequences have the same length. -/
def TrailsEqualLength (t : WheelTrails) : Prop :=
  t.frontLeft.length = t.frontRight.length ∧
  t.frontLeft.length = t.rearLeft.length ∧
  t.frontLeft.length = t.rearRight.length

/-- An update tick either records the pre-integration wheel positions into
the trails or leaves the trails unchanged. -/
lemma update_trails_cases (car : Car) (dt : ℝ) (input : ControlInput) :
    (car.update dt input).wheelTrails =
        recordWheelPositions car.config (preIntegrationState car dt input)
          car.wheelTrails ∨
      (car.update dt input).wheelTrails = car.wheelTrails := by
  unfold Car.update
  dsimp only
  split
  · exact Or.inl rfl
  · exact Or.inr rfl

/-- Recording wheel positions grows every trail sequence by exactly one. -/
lemma recordWheelPositions_lengths (config : CarConfig) (state : CarState)
    (trails : WheelTrails) :
    (recordWheelPositions config state trails).frontLeft.length =
        trails.frontLeft.length + 1 ∧
      (recordWheelPositions config state trails).frontRight.length =
        trails.frontRight.length + 1 ∧
      (recordWheelPositions config state trails).rearLeft.length =
        trails.rearLeft.length + 1 ∧
      (recordWheelPositions config state trails).rearRight.length =
        trails.rearRight.length + 1 := by
  unfold recordWheelPositions
  dsimp only
  refine ⟨?_, ?_, ?_, ?_⟩
  all_goals simp

/-- Every single public operation preserves the equal-length trail
invariant: it appends one point to all four sequences, empties all four,
or touches none. -/
lemma applyOp_preserves_equal_length (car : Car) (op : CarOp)
    (h : TrailsEqualLength car.wheelTrails) :
    TrailsEqualLength (car.applyOp op).wheelTrails := by
  cases op with
  | update dt input =>
    show TrailsEqualLength (car.update dt input).wheelTrails
    rcases update_trails_cases car dt input with he | he <;> rw [he]
    · obtain ⟨l1, l2, l3, l4⟩ :=
        recordWheelPositions_lengths car.config
          (preIntegrationState car dt input) car.wheelTrails
      obtain ⟨e1, e2, e3⟩ := h
      exact ⟨by rw [l1, l2, e1], by rw [l1, l3, e2], by rw [l1, l4, e3]⟩
    · exact h
  | clearTrails => exact ⟨rfl, rfl, rfl⟩
  | setConfig config => exact h
  | reset x y heading => exact ⟨rfl, rfl, rfl⟩

/-- C10: after construction and after every sequence of update,
clearTrails, setConfig and reset calls, the four trail sequences always
have equal length. -/
theorem applyOps_trails_equal_length (x y h : ℝ) (cfg : CarConfig)
    (ops : List CarOp) :
    TrailsEqualLength (((mkCar x y h cfg).applyOps ops).wheelTrails) := by
  have key : ∀ (ops : List CarOp) (car : Car),
      TrailsEqualLength car.wheelTrails →
      TrailsEqualLength ((car.applyOps ops).wheelTrails) := by
    intro ops
    induction ops with
    | nil => intro car hcar; exact hcar
    | cons op rest ih =>
      intro car hcar
      exact ih _ (applyOp_preserves_equal_length car op hcar)
  exact key ops _ ⟨rfl, rfl, rfl⟩

end ParkingSim
